import Mathlib

/-!
Verification of the structured-logger configuration repository
(a pino-based logger with redaction and multi-target routing).

The repository consists of a `Logger` class wrapping the external `pino`
library.  The configuration objects (redaction policy, transport targets,
default options, levels) are embedded here directly from the source file
`src/unnamed/part_000`; the behaviour of the external logging engine
(redaction path resolution, level-threshold routing, child-context
merging, emit argument handling) is modelled from the specification,
which defines these as the policy core.
-/

namespace ExplorePino

/-! ## Data model: dynamically shaped context values

The spec (design notes) represents arbitrarily-shaped context objects as a
variant value type: null, bool, number, string, list, mapping. -/

inductive JVal where
  | null : JVal
  | bool : Bool → JVal
  | num : Int → JVal
  | str : String → JVal
  | arr : List JVal → JVal
  | obj : List (String × JVal) → JVal
  deriving Repr

/-! ## Redaction paths

Source line 100: the configured paths are user.address, user.passport,
user.phone and *.password, with the comment that `*` is a wildcard
covering a depth of 1.  A path is a dot-separated list of segments; a segment is either a
literal key or the wildcard. -/

inductive Seg where
  | wild : Seg
  | key : String → Seg
  deriving Repr, BEq, DecidableEq

def segMatch : Seg → String → Bool
  | Seg.wild, _ => true
  | Seg.key s, k => k == s

/-- Split a character list on a separator character (kernel-reducible
counterpart of splitting a string on a separator). -/
def splitSegs (sep : Char) : List Char → List (List Char)
  | [] => [[]]
  | c :: rest =>
    match splitSegs sep rest with
    | [] => if c == sep then [[], []] else [[c]]
    | g :: gs => if c == sep then [] :: g :: gs else (c :: g) :: gs

/-- Parse a dot-separated redaction path string into segments,
with `*` as the wildcard segment. -/
def parsePath (s : String) : List Seg :=
  (splitSegs '.' s.data).map (fun t =>
    if t == ['*'] then Seg.wild else Seg.key (String.mk t))

/-- Modelled from the spec: the REMOVE-mode redaction engine of §4.2,
whose implementation lives in the external logging library.  Resolve one
path pattern against the context tree; a wildcard segment matches every
key present at that depth; a matched key is deleted; paths that do not
resolve (missing intermediate keys, non-mapping values) are silently
skipped. -/
def removeP : List Seg → JVal → JVal
  | [], v => v
  | [seg], JVal.obj fs => JVal.obj (fs.filter (fun kv => !(segMatch seg kv.1)))
  | [_], v => v
  | seg :: s2 :: rest, JVal.obj fs =>
      JVal.obj (fs.map (fun kv =>
        if segMatch seg kv.1 then (kv.1, removeP (s2 :: rest) kv.2) else kv))
  | _ :: _ :: _, v => v

/-- A path pattern resolves in a context tree: following the segments
through nested mappings (wildcard matching any key) reaches an existing
key. -/
def resolvesB : List Seg → JVal → Bool
  | [], _ => false
  | [seg], JVal.obj fs => fs.any (fun kv => segMatch seg kv.1)
  | [_], _ => false
  | seg :: s2 :: rest, JVal.obj fs =>
      fs.any (fun kv => segMatch seg kv.1 && resolvesB (s2 :: rest) kv.2)
  | _ :: _ :: _, _ => false

/-! ## The configured redaction policy (source lines 99-103) -/

structure RedactOptions where
  paths : List String
  censor : String
  remove : Bool
  deriving Repr, DecidableEq

def redactOptions : RedactOptions :=
  ⟨["user.address", "user.passport", "user.phone", "*.password"],
   "[PINO REDACTED]", true⟩

def configPaths : List (List Seg) := redactOptions.paths.map parsePath

/-- Modelled from the spec: apply every configured pattern of the policy
to the context tree; patterns are evaluated independently, in order. -/
def redactCtx (c : JVal) : JVal :=
  configPaths.foldl (fun v p => removeP p v) c

/-! ## Occurrence of a string among the values of a tree

Used to state that the censor placeholder never appears in redacted
output: redaction in REMOVE mode only deletes keys and never writes the
placeholder. -/

mutual

/-- Some value node in the tree is the string `s`. -/
def containsStr (s : String) : JVal → Bool
  | JVal.str t => t == s
  | JVal.arr xs => containsStrL s xs
  | JVal.obj fs => containsStrF s fs
  | _ => false

def containsStrL (s : String) : List JVal → Bool
  | [] => false
  | v :: vs => containsStr s v || containsStrL s vs

def containsStrF (s : String) : List (String × JVal) → Bool
  | [] => false
  | kv :: fs => containsStr s kv.2 || containsStrF s fs

end

/-! ## Severity levels

Numeric ranks from the source (comments on the bound emit functions,
lines 63-69, and `customLevels: \x7b notice: 35 \x7d`). -/

inductive Level where
  | trace | debug | info | notice | warn | error | fatal
  deriving Repr, DecidableEq

def levelVal : Level → Nat
  | Level.trace => 10
  | Level.debug => 20
  | Level.info => 30
  | Level.notice => 35
  | Level.warn => 40
  | Level.error => 50
  | Level.fatal => 60

/-! ## Logger options (`TargetsOptions`, source lines 3-31 and 42-53)

Fields are `Option`-valued because a caller may pass a partial object:
an omitted field of a JS object is `undefined`.  The source reads such
fields through optional chaining (`?.`) and nullish coalescing
(`?? ...`), modelled by `Option.bind` and `Option.getD`. -/

structure FileOptions where
  enable : Option Bool
  path : Option String
  deriving Repr, DecidableEq

structure MongoConnOptions where
  uri : Option String
  database : Option String
  collection : Option String
  deriving Repr, DecidableEq

structure MongoOpts where
  enable : Option Bool
  options : Option MongoConnOptions
  deriving Repr, DecidableEq

structure TargetsOptions where
  console : Option Bool
  file : Option FileOptions
  mongo : Option MongoOpts
  deriving Repr, DecidableEq

/-- The built-in default `#meta` (source lines 42-53). -/
def defaultMeta : TargetsOptions :=
  ⟨some true,
   some ⟨some false, some "./logs/app.log"⟩,
   some ⟨some false,
     some ⟨some "mongodb://mongo.one.db:27017,mongo.two.db:27017,mongo.three.db:27017/logs?replicaSet=dbrs",
           some "logs",
           some "log-collection"⟩⟩⟩

/-- The constructor assignment `this.#meta = opts ?? this.#meta`
(source line 60): a supplied options object replaces the default wholly;
the default survives only when no options object is supplied. -/
def metaOf (opts : Option TargetsOptions) : TargetsOptions :=
  opts.getD defaultMeta

/-- Refinement comparison only: what the spec sentence "caller-supplied
options merged over defaults" describes, a field-by-field shallow merge
where every field omitted by the caller takes its default value. -/
def specMergeMeta (opts : TargetsOptions) : TargetsOptions :=
  ⟨some (opts.console.getD (defaultMeta.console.getD false)),
   some ⟨some (((opts.file.bind FileOptions.enable)).getD false),
         some (((opts.file.bind FileOptions.path)).getD "./logs/app.log")⟩,
   some ⟨some (((opts.mongo.bind MongoOpts.enable)).getD false),
         some ⟨some ((opts.mongo.bind MongoOpts.options |>.bind MongoConnOptions.uri).getD
                 "mongodb://mongo.one.db:27017,mongo.two.db:27017,mongo.three.db:27017/logs?replicaSet=dbrs"),
               some ((opts.mongo.bind MongoOpts.options |>.bind MongoConnOptions.database).getD "logs"),
               some ((opts.mongo.bind MongoOpts.options |>.bind MongoConnOptions.collection).getD "log-collection")⟩⟩⟩

/-! ## Sink configurations (the transport targets) -/

/-- One transport target, keeping the fields the claims are about:
the target name, its minimum level, and its destination fields. -/
structure SinkCfg where
  target : String
  level : Level
  destination : String
  uri : String
  database : String
  collection : String
  deriving Repr, DecidableEq

/-- `#consoleLogger` (source lines 121-134): `pino-pretty` at level
`trace`; the pretty-printing options are not part of any claim. -/
def consoleLogger : SinkCfg :=
  ⟨"pino-pretty", Level.trace, "", "", "", ""⟩

/-- `#fileLogger` (source lines 136-146): `pino/file` at level `trace`,
destination `this.#meta.file.path ?? ''`. -/
def fileLogger (f : FileOptions) : SinkCfg :=
  ⟨"pino/file", Level.trace, f.path.getD "", "", "", ""⟩

/-- `#mongoDbLogger` (source lines 148-161): `pino-mongodb` at level
`info`; note that `collection` is populated from
`this.#meta.mongo.options.uri ?? ''`, not from the `collection` field. -/
def mongoDbLogger (o : MongoConnOptions) : SinkCfg :=
  ⟨"pino-mongodb", Level.info, "", o.uri.getD "", o.database.getD "", o.uri.getD ""⟩

/-- JS truthiness of a possibly-absent boolean field. -/
def truthy (o : Option Bool) : Bool := o.getD false

def fileOf (m : TargetsOptions) : FileOptions :=
  m.file.getD ⟨none, none⟩

def mongoConnOf (m : TargetsOptions) : MongoConnOptions :=
  (m.mongo.bind MongoOpts.options).getD ⟨none, none, none⟩

/-- `#transport` (source lines 113-119): the enabled targets, in push
order: console when `#meta?.console` is truthy, file when
`#meta?.file?.enable` is truthy, mongo when `#meta?.mongo?.enable` is
truthy. -/
def transportTargets (m : TargetsOptions) : List SinkCfg :=
  (if truthy m.console then [consoleLogger] else []) ++
  (if truthy (m.file.bind FileOptions.enable) then [fileLogger (fileOf m)] else []) ++
  (if truthy (m.mongo.bind MongoOpts.enable) then [mongoDbLogger (mongoConnOf m)] else [])

/-- Modelled from the spec: the sink router of §4.3, implemented by the
external logging library: a record is forwarded to every configured sink
whose minimum-level rank is at most the rank of the record level. -/
def route (m : TargetsOptions) (lvl : Level) : List SinkCfg :=
  (transportTargets m).filter (fun s => levelVal s.level ≤ levelVal lvl)

/-! ## Child loggers and context merging -/

/-- A context object: an association list of fields. -/
abbrev Ctx := List (String × JVal)

/-- Modelled from the spec: shallow merge of two contexts, the second
(closer) context winning on key collision. -/
def mergeCtx (a b : Ctx) : Ctx :=
  a.filter (fun kv => !(b.any (fun kv2 => kv2.1 == kv.1))) ++ b

/-- Look a key up in a context. -/
def ctxLookup (k : String) (c : Ctx) : Option JVal :=
  (c.find? (fun kv => kv.1 == k)).map (fun kv => kv.2)

/-- Modelled from the spec: the logical logger of §4.4, carrying the
accumulated bound context of its chain of ancestors. -/
structure LoggerM where
  bindings : Ctx

def rootLogger : LoggerM := ⟨[]⟩

/-- Modelled from the spec: `child(extraContext)` returns a derived
logger whose bound context is the parent bindings with `extraContext`
shallow-merged in, closest winning on collision. -/
def childM (L : LoggerM) (extra : Ctx) : LoggerM :=
  ⟨mergeCtx L.bindings extra⟩

/-- Modelled from the spec: the context of a record emitted by a logger
with a per-call context: the bound context shallow-merged with the
per-call context. -/
def emitCtx (L : LoggerM) (callCtx : Ctx) : Ctx :=
  mergeCtx L.bindings callCtx

/-! ## The emit pipeline -/

structure Record where
  level : Level
  msg : String
  context : JVal
  deriving Repr

/-- Modelled from the spec: one emission: build the record context from
the bound and per-call contexts, apply the redaction policy once, then
fan the single redacted record out to every routed sink.  Returns the
(sink, delivered record) pairs. -/
def emitPipeline (m : TargetsOptions) (L : LoggerM) (lvl : Level)
    (callCtx : Ctx) (msg : String) : List (SinkCfg × Record) :=
  (route m lvl).map
    (fun s => (s, ⟨lvl, msg, redactCtx (JVal.obj (emitCtx L callCtx))⟩))

/-! ## Emit call shape checking and delivery failure isolation

Modelled from the spec (§4.1, §7) and the NOTES comment of the source
(lines 179-184): a first string argument is the message and the rest is
ignored; a first object argument is the context and requires a string
message; otherwise the call is malformed (InvalidArgument). -/

inductive EmitArg where
  | str : String → EmitArg
  | obj : Ctx → EmitArg

inductive EmitErr where
  | invalidArgument
  deriving Repr, DecidableEq

/-- Modelled from the spec: classify an emit call.  On success, the
optional context and the message. -/
def checkEmit (first : EmitArg) (second : Option EmitArg) :
    Except EmitErr (Option Ctx × String) :=
  match first, second with
  | EmitArg.str s, _ => Except.ok (none, s)
  | EmitArg.obj c, some (EmitArg.str msg) => Except.ok (some c, msg)
  | EmitArg.obj _, _ => Except.error EmitErr.invalidArgument

/-- Modelled from the spec: what the caller of `emit` observes.  Sink
delivery happens after the call returns (fire-and-forget), so the
outcome depends only on the call shape, never on delivery failures. -/
def emitOutcome (first : EmitArg) (second : Option EmitArg) : Except EmitErr Unit :=
  (checkEmit first second).map (fun _ => ())

/-- Modelled from the spec: the sinks that actually receive the record
when the sinks in `failing` fail: failures are isolated per sink and do
not prevent delivery to the remaining sinks. -/
def deliveredSinks (m : TargetsOptions) (lvl : Level) (failing : SinkCfg → Bool) :
    List SinkCfg :=
  (route m lvl).filter (fun s => !(failing s))

/-- Modelled from the spec: one full emit call as the caller observes
it, paired with the set of sinks that receive the record given which
sinks fail: the caller-visible outcome is computed before any delivery,
and a failing sink only removes itself from the deliveries. -/
def emitRun (m : TargetsOptions) (lvl : Level) (first : EmitArg)
    (second : Option EmitArg) (failing : SinkCfg → Bool) :
    Except EmitErr Unit × List SinkCfg :=
  match checkEmit first second with
  | Except.error e => (Except.error e, [])
  | Except.ok _ => (Except.ok (), deliveredSinks m lvl failing)

/-- The options object the module passes to `new Logger(...)` at export
time (source lines 164-175): console, file and mongo all enabled. -/
def exportedOpts : TargetsOptions :=
  ⟨some true,
   some ⟨some true, some "./logs/app.log"⟩,
   some ⟨some true,
     some ⟨some "mongodb://mongo.one.db:27017,mongo.two.db:27017,mongo.three.db:27017/logs?replicaSet=dbrs",
           some "logs",
           some "log-collection"⟩⟩⟩

/-! ## Redaction lemmas -/

theorem resolvesB_nil (v : JVal) : resolvesB [] v = false := by
  cases v <;> rfl

theorem removeP_nil (v : JVal) : removeP [] v = v := by
  cases v <;> rfl

/-- After removing a pattern, the pattern no longer resolves. -/
theorem resolvesB_removeP_self (p : List Seg) (v : JVal) :
    resolvesB p (removeP p v) = false := by
  induction p, v using removeP.induct with
  | case1 v => rw [removeP_nil]; exact resolvesB_nil v
  | case2 seg fs =>
    simp only [removeP, resolvesB]
    rw [List.any_eq_false]
    intro kv hkv
    rw [List.mem_filter] at hkv
    simpa using hkv.2
  | case3 seg v h =>
    cases v <;> first
      | exact absurd rfl (h _)
      | simp [removeP, resolvesB]
  | case4 seg s2 rest fs ih =>
    simp only [removeP, resolvesB]
    rw [List.any_map, List.any_eq_false]
    intro kv _
    by_cases hm : segMatch seg kv.1 = true
    · simp [Function.comp, hm, ih kv]
    · simp [Function.comp, hm]
  | case5 s1 s2 tail v h =>
    cases v <;> first
      | exact absurd rfl (h _)
      | simp [removeP, resolvesB]

/-- Removing any pattern never makes another pattern resolve. -/
theorem resolvesB_removeP_of_not (q : List Seg) (v : JVal) :
    ∀ (p : List Seg), resolvesB p v = false → resolvesB p (removeP q v) = false := by
  induction q, v using removeP.induct with
  | case1 v => intro p h; rwa [removeP_nil]
  | case2 seg fs =>
    intro p h
    cases p with
    | nil => exact resolvesB_nil _
    | cons ps ptail =>
      cases ptail with
      | nil =>
        simp only [removeP, resolvesB] at h ⊢
        rw [List.any_eq_false] at h ⊢
        intro kv hkv
        exact h kv (List.mem_of_mem_filter hkv)
      | cons p2 prest =>
        simp only [removeP, resolvesB] at h ⊢
        rw [List.any_eq_false] at h ⊢
        intro kv hkv
        exact h kv (List.mem_of_mem_filter hkv)
  | case3 seg v hno =>
    intro p h
    cases v <;> first
      | exact absurd rfl (hno _)
      | simpa [removeP] using h
  | case4 seg s2 rest fs ih =>
    intro p h
    cases p with
    | nil => exact resolvesB_nil _
    | cons ps ptail =>
      cases ptail with
      | nil =>
        simp only [removeP, resolvesB] at h ⊢
        rw [List.any_map, List.any_eq_false]
        rw [List.any_eq_false] at h
        intro kv hkv
        by_cases hm : segMatch seg kv.1 = true <;>
          simpa [Function.comp, hm] using h kv hkv
      | cons p2 prest =>
        simp only [removeP, resolvesB] at h ⊢
        rw [List.any_map, List.any_eq_false]
        rw [List.any_eq_false] at h
        intro kv hkv
        have hkv2 := h kv hkv
        by_cases hm : segMatch seg kv.1 = true
        · simp only [Function.comp, hm, if_pos]
          by_cases hps : segMatch ps kv.1 = true
          · simp only [hps, Bool.true_and] at hkv2 ⊢
            simp only [Bool.not_eq_true] at hkv2
            simp [ih kv (p2 :: prest) hkv2]
          · simp [hps]
        · simpa [Function.comp, hm] using hkv2
  | case5 s1 s2 tail v hno =>
    intro p h
    cases v <;> first
      | exact absurd rfl (hno _)
      | simpa [removeP] using h

/-- A pattern that does not resolve removes nothing. -/
theorem removeP_of_not_resolves (p : List Seg) (v : JVal) :
    resolvesB p v = false → removeP p v = v := by
  induction p, v using removeP.induct with
  | case1 v => intro _; exact removeP_nil v
  | case2 seg fs =>
    intro h
    simp only [resolvesB] at h
    rw [List.any_eq_false] at h
    simp only [removeP]
    congr 1
    rw [List.filter_eq_self]
    intro kv hkv
    simpa using h kv hkv
  | case3 seg v hno =>
    intro _
    cases v <;> first
      | exact absurd rfl (hno _)
      | rfl
  | case4 seg s2 rest fs ih =>
    intro h
    simp only [resolvesB] at h
    rw [List.any_eq_false] at h
    simp only [removeP]
    congr 1
    have : ∀ kv ∈ fs,
        (fun kv : String × JVal =>
          if segMatch seg kv.1 = true then (kv.1, removeP (s2 :: rest) kv.2) else kv) kv
        = id kv := by
      intro kv hkv
      have hkv2 := h kv hkv
      by_cases hm : segMatch seg kv.1 = true
      · simp only [hm, Bool.true_and, Bool.not_eq_true] at hkv2
        simp [hm, ih kv hkv2]
      · simp [hm]
    rw [List.map_congr_left this, List.map_id]
  | case5 s1 s2 tail v hno =>
    intro _
    cases v <;> first
      | exact absurd rfl (hno _)
      | rfl



/-- Pattern removal folded over a whole policy keeps a non-resolving
pattern non-resolving. -/
theorem foldl_remove_preserves (ps : List (List Seg)) :
    ∀ (p : List Seg) (v : JVal), resolvesB p v = false →
    resolvesB p (ps.foldl (fun w q => removeP q w) v) = false := by
  induction ps with
  | nil => intro p v h; simpa using h
  | cons q qs ih =>
    intro p v h
    rw [List.foldl_cons]
    exact ih p _ (resolvesB_removeP_of_not q v p h)

/-- No pattern of a policy resolves once the whole policy has been
applied. -/
theorem foldl_remove_of_mem (ps : List (List Seg)) (p : List Seg) (hp : p ∈ ps) :
    ∀ v, resolvesB p (ps.foldl (fun w q => removeP q w) v) = false := by
  induction hp with
  | head as =>
    intro v
    rw [List.foldl_cons]
    exact foldl_remove_preserves as p _ (resolvesB_removeP_self p v)
  | tail b hmem ih =>
    intro v
    rw [List.foldl_cons]
    exact ih _

theorem redactCtx_not_resolves (p : List Seg) (hp : p ∈ configPaths) (c : JVal) :
    resolvesB p (redactCtx c) = false :=
  foldl_remove_of_mem configPaths p hp c

/-- A policy none of whose patterns resolve changes nothing. -/
theorem foldl_remove_stable (ps : List (List Seg)) :
    ∀ (v : JVal), (∀ p ∈ ps, resolvesB p v = false) →
    ps.foldl (fun w q => removeP q w) v = v := by
  induction ps with
  | nil => intro v _; rfl
  | cons q qs ih =>
    intro v h
    rw [List.foldl_cons, removeP_of_not_resolves q v (h q (List.mem_cons_self q qs))]
    exact ih v (fun p hp => h p (List.mem_cons_of_mem q hp))

theorem redactCtx_idem_aux (c : JVal) : redactCtx (redactCtx c) = redactCtx c :=
  foldl_remove_stable configPaths (redactCtx c)
    (fun p hp => redactCtx_not_resolves p hp c)

/-- Values surviving a filter were among the original fields. -/
theorem containsStrF_filter (s : String) (g : String × JVal → Bool) :
    ∀ fs, containsStrF s (fs.filter g) = true → containsStrF s fs = true := by
  intro fs
  induction fs with
  | nil => intro h; simpa using h
  | cons kv fs ih =>
    intro h
    rw [List.filter_cons] at h
    by_cases hg : g kv = true
    · rw [if_pos hg] at h
      simp only [containsStrF, Bool.or_eq_true] at h ⊢
      rcases h with h1 | h2
      · exact Or.inl h1
      · exact Or.inr (ih h2)
    · rw [if_neg hg] at h
      simp only [containsStrF, Bool.or_eq_true]
      exact Or.inr (ih h)

/-- Removal only deletes: every string value of the output was a string
value of the input. -/
theorem containsStr_removeP (s : String) (p : List Seg) (v : JVal) :
    containsStr s (removeP p v) = true → containsStr s v = true := by
  induction p, v using removeP.induct with
  | case1 v => rw [removeP_nil]; exact id
  | case2 seg fs =>
    simp only [removeP, containsStr]
    exact containsStrF_filter s _ fs
  | case3 seg v hno =>
    cases v <;> first
      | exact absurd rfl (hno _)
      | exact id
  | case4 seg s2 rest fs ih =>
    simp only [removeP, containsStr]
    induction fs with
    | nil => exact id
    | cons kv fs ihf =>
      simp only [List.map_cons, containsStrF, Bool.or_eq_true]
      intro h
      rcases h with h1 | h2
      · by_cases hm : segMatch seg kv.1 = true
        · rw [if_pos hm] at h1
          exact Or.inl (ih kv h1)
        · rw [if_neg hm] at h1
          exact Or.inl h1
      · exact Or.inr (ihf h2)
  | case5 s1 s2 tail v hno =>
    cases v <;> first
      | exact absurd rfl (hno _)
      | exact id

/-- The whole policy only deletes values, never introduces any. -/
theorem containsStr_redactCtx (s : String) (c : JVal) :
    containsStr s (redactCtx c) = true → containsStr s c = true := by
  have main : ∀ (ps : List (List Seg)) (v : JVal),
      containsStr s (ps.foldl (fun w q => removeP q w) v) = true →
      containsStr s v = true := by
    intro ps
    induction ps with
    | nil => intro v h; simpa using h
    | cons q qs ih =>
      intro v h
      rw [List.foldl_cons] at h
      exact containsStr_removeP s q v (ih _ h)
  exact main configPaths c



/-- Filtering with a predicate that keeps everything the search accepts
does not change the search result. -/
theorem find?_filter_keep {α : Type} (p g : α → Bool) :
    ∀ (l : List α), (∀ x ∈ l, p x = true → g x = true) →
    (l.filter g).find? p = l.find? p := by
  intro l
  induction l with
  | nil => intro _; rfl
  | cons x l ih =>
    intro h
    rw [List.filter_cons]
    by_cases hp : p x = true
    · have hg := h x (List.mem_cons_self x l) hp
      rw [if_pos hg, List.find?_cons_of_pos _ hp, List.find?_cons_of_pos _ hp]
    · by_cases hg : g x = true
      · rw [if_pos hg, List.find?_cons_of_neg _ hp, List.find?_cons_of_neg _ hp]
        exact ih (fun y hy => h y (List.mem_cons_of_mem x hy))
      · rw [if_neg hg, List.find?_cons_of_neg _ hp]
        exact ih (fun y hy => h y (List.mem_cons_of_mem x hy))

/-- Shallow merge resolves lookups with the second context winning. -/
theorem ctxLookup_mergeCtx (a b : Ctx) (k : String) :
    ctxLookup k (mergeCtx a b) = (ctxLookup k b).or (ctxLookup k a) := by
  unfold ctxLookup mergeCtx
  rw [List.find?_append]
  cases hb : List.find? (fun kv => kv.1 == k) b with
  | some kv =>
    have hfil : List.find? (fun kv => kv.1 == k)
        (a.filter (fun kv => !(b.any (fun kv2 => kv2.1 == kv.1)))) = none := by
      rw [List.find?_eq_none]
      intro x hx hpx
      rw [List.mem_filter] at hx
      have h1 : kv.1 = k := by simpa using List.find?_some hb
      have h2 : x.1 = k := by simpa using hpx
      have hany : b.any (fun kv2 => kv2.1 == x.1) = true := by
        rw [List.any_eq_true]
        exact ⟨kv, List.mem_of_find?_eq_some hb, by simp [h1, h2]⟩
      rw [hany] at hx
      simpa using hx.2
    rw [hfil]
    rfl
  | none =>
    have hka : ∀ x ∈ a, (fun kv : String × JVal => kv.1 == k) x = true →
        (fun kv : String × JVal => !(b.any (fun kv2 => kv2.1 == kv.1))) x = true := by
      intro x hx hpx
      have h2 : x.1 = k := by simpa using hpx
      rw [List.find?_eq_none] at hb
      simp only [Bool.not_eq_true', List.any_eq_false]
      intro y hy
      have := hb y hy
      simpa [h2] using this
    rw [find?_filter_keep _ _ a hka]
    cases List.find? (fun kv => kv.1 == k) a <;> rfl

/-- Merging the empty context on the right changes nothing. -/
theorem mergeCtx_nil_right (a : Ctx) : mergeCtx a [] = a := by
  unfold mergeCtx
  simp

/-- Merging the empty context on the left gives the right context. -/
theorem mergeCtx_nil_left (b : Ctx) : mergeCtx [] b = b := rfl


/-! ## The claims -/

/-- C1: for every context tree containing a key that matches one of the
configured REMOVE-mode redaction paths (user.address, user.passport,
user.phone, *.password), the redacted output context does not contain
that key at all: the policy is in remove mode and the matched path no
longer resolves to any key after redaction. -/
theorem removeModeDeletesMatchedKeys (p : List Seg) (c : JVal)
    (hp : p ∈ configPaths) (_hc : resolvesB p c = true) :
    redactOptions.remove = true ∧ resolvesB p (redactCtx c) = false :=
  ⟨rfl, redactCtx_not_resolves p hp c⟩

/-- C1 witness: the path user.address on a context that contains it. -/
theorem removeModeDeletesMatchedKeys_witness :
    redactOptions.remove = true ∧
    resolvesB (parsePath "user.address")
      (redactCtx (JVal.obj
        [("user", JVal.obj [("address", JVal.str "X"), ("id", JVal.num 1)])])) = false :=
  removeModeDeletesMatchedKeys (parsePath "user.address")
    (JVal.obj [("user", JVal.obj [("address", JVal.str "X"), ("id", JVal.num 1)])])
    (List.mem_cons_self _ _) (by decide)

/-- C2: the wildcard pattern *.password matches a key named password
exactly when it sits at depth 1, under any single top-level key: it
resolves for a password key one level down regardless of the parent key,
it does not resolve for a top-level password key, and it does not
resolve for a password key two levels down; removal leaves the depth-0
and depth-2 occurrences untouched. -/
theorem wildcardMatchesDepthOneOnly (k p2 s t u : String)
    (hp2 : p2 ≠ "password") :
    resolvesB (parsePath "*.password")
      (JVal.obj [(k, JVal.obj [("password", JVal.str s)])]) = true ∧
    resolvesB (parsePath "*.password")
      (JVal.obj [("password", JVal.str t)]) = false ∧
    resolvesB (parsePath "*.password")
      (JVal.obj [(k, JVal.obj [(p2, JVal.obj [("password", JVal.str u)])])]) = false ∧
    removeP (parsePath "*.password")
      (JVal.obj [(k, JVal.obj [("password", JVal.str s), ("keep", JVal.num 1)])])
      = JVal.obj [(k, JVal.obj [("keep", JVal.num 1)])] ∧
    removeP (parsePath "*.password")
      (JVal.obj [("password", JVal.str t)]) = JVal.obj [("password", JVal.str t)] ∧
    removeP (parsePath "*.password")
      (JVal.obj [(k, JVal.obj [(p2, JVal.obj [("password", JVal.str u)])])])
      = JVal.obj [(k, JVal.obj [(p2, JVal.obj [("password", JVal.str u)])])] := by
  have hpp : parsePath "*.password" = [Seg.wild, Seg.key "password"] := by decide
  have hb : (p2 == "password") = false := by
    simpa using hp2
  rw [hpp]
  refine ⟨?_, ?_, ?_, ?_, ?_, ?_⟩
  · simp [resolvesB, segMatch]
  · simp [resolvesB, segMatch]
  · simp [resolvesB, segMatch, hb]
  · simp [removeP, segMatch]
  · simp [removeP, segMatch]
  · simp [removeP, segMatch, hb]

/-- C2 witness: parent key u, non-password intermediate key q. -/
theorem wildcardMatchesDepthOneOnly_witness :
    resolvesB (parsePath "*.password")
      (JVal.obj [("u", JVal.obj [("password", JVal.str "x")])]) = true ∧
    resolvesB (parsePath "*.password")
      (JVal.obj [("password", JVal.str "y")]) = false ∧
    resolvesB (parsePath "*.password")
      (JVal.obj [("u", JVal.obj [("q", JVal.obj [("password", JVal.str "z")])])]) = false ∧
    removeP (parsePath "*.password")
      (JVal.obj [("u", JVal.obj [("password", JVal.str "x"), ("keep", JVal.num 1)])])
      = JVal.obj [("u", JVal.obj [("keep", JVal.num 1)])] ∧
    removeP (parsePath "*.password")
      (JVal.obj [("password", JVal.str "y")]) = JVal.obj [("password", JVal.str "y")] ∧
    removeP (parsePath "*.password")
      (JVal.obj [("u", JVal.obj [("q", JVal.obj [("password", JVal.str "z")])])])
      = JVal.obj [("u", JVal.obj [("q", JVal.obj [("password", JVal.str "z")])])] :=
  wildcardMatchesDepthOneOnly "u" "q" "x" "y" "z" (by decide)

/-- C3: redaction with the configured policy is idempotent, and applying
any single removal pattern twice is a no-op. -/
theorem redactIdempotent (c : JVal) :
    redactCtx (redactCtx c) = redactCtx c ∧
    ∀ p : List Seg, removeP p (removeP p c) = removeP p c := by
  refine ⟨redactCtx_idem_aux c, ?_⟩
  intro p
  exact removeP_of_not_resolves p _ (resolvesB_removeP_self p c)


/-- C4: a sink receives a record exactly when the sink is among the
enabled transport targets and the numeric rank of the record level is at
least the rank of the sink minimum level; in particular the
document-store sink (minimum level info, rank 30) does not receive a
debug (rank 20) record even when enabled, and an error (rank 50) record
reaches every enabled sink whose minimum-level rank is at most 50. -/
theorem sinkLevelThresholdRouting (m : TargetsOptions) (lvl : Level) (s : SinkCfg)
    (hmongo : truthy (m.mongo.bind MongoOpts.enable) = true)
    (hs : s ∈ transportTargets m) (hs50 : levelVal s.level ≤ 50) :
    (s ∈ route m lvl ↔ s ∈ transportTargets m ∧ levelVal s.level ≤ levelVal lvl) ∧
    mongoDbLogger (mongoConnOf m) ∈ transportTargets m ∧
    mongoDbLogger (mongoConnOf m) ∉ route m Level.debug ∧
    s ∈ route m Level.error := by
  refine ⟨?_, ?_, ?_, ?_⟩
  · unfold route
    rw [List.mem_filter]
    simp
  · unfold transportTargets
    rw [hmongo]
    simp
  · intro hmem
    unfold route at hmem
    rw [List.mem_filter] at hmem
    simp [mongoDbLogger, levelVal] at hmem
  · unfold route
    rw [List.mem_filter]
    exact ⟨hs, by simpa [levelVal] using hs50⟩

/-- C4 witness: the exported configuration (all sinks enabled), the
console sink and the info level. -/
theorem sinkLevelThresholdRouting_witness :
    (consoleLogger ∈ route exportedOpts Level.info ↔
      consoleLogger ∈ transportTargets exportedOpts ∧
      levelVal consoleLogger.level ≤ levelVal Level.info) ∧
    mongoDbLogger (mongoConnOf exportedOpts) ∈ transportTargets exportedOpts ∧
    mongoDbLogger (mongoConnOf exportedOpts) ∉ route exportedOpts Level.debug ∧
    consoleLogger ∈ route exportedOpts Level.error :=
  sinkLevelThresholdRouting exportedOpts Level.info consoleLogger
    (by decide) (List.mem_cons_self _ _) (by decide)

/-- C5: a child logger emits records whose context is the shallow merge
of the child binding with the per-call context, and nested children
merge all ancestor contexts with the closest binding winning on key
collision. -/
theorem childContextMerging :
    emitCtx (childM rootLogger [("ID", JVal.num 1)]) [("a", JVal.num 1)]
      = [("ID", JVal.num 1), ("a", JVal.num 1)] ∧
    (∀ (a b : Ctx) (k : String),
      ctxLookup k (mergeCtx a b) = (ctxLookup k b).or (ctxLookup k a)) ∧
    (∀ (g c : Ctx) (k : String),
      ctxLookup k (emitCtx (childM (childM rootLogger g) c) []) =
        (ctxLookup k c).or (ctxLookup k g)) := by
  refine ⟨rfl, ctxLookup_mergeCtx, ?_⟩
  intro g c k
  show ctxLookup k (mergeCtx (mergeCtx (mergeCtx [] g) c) []) = _
  rw [mergeCtx_nil_left, mergeCtx_nil_right]
  exact ctxLookup_mergeCtx g c k

/-- C6: for one emission, redaction is applied exactly once and before
fan-out: every delivered record carries the same context, equal to the
redaction of the merged emit context, and that context is a fixed point
of redaction, so no sink observes an unredacted or differently redacted
copy. -/
theorem redactionOnceBeforeFanout (m : TargetsOptions) (L : LoggerM) (lvl : Level)
    (cc : Ctx) (msg : String) (s1 : SinkCfg) (r1 : Record) (s2 : SinkCfg) (r2 : Record)
    (h1 : (s1, r1) ∈ emitPipeline m L lvl cc msg)
    (h2 : (s2, r2) ∈ emitPipeline m L lvl cc msg) :
    r1.context = redactCtx (JVal.obj (emitCtx L cc)) ∧
    redactCtx r1.context = r1.context ∧
    r1 = r2 := by
  have hrec : ∀ (s : SinkCfg) (r : Record), (s, r) ∈ emitPipeline m L lvl cc msg →
      r = ⟨lvl, msg, redactCtx (JVal.obj (emitCtx L cc))⟩ := by
    intro s r hmem
    unfold emitPipeline at hmem
    rw [List.mem_map] at hmem
    rcases hmem with ⟨x, _, hx⟩
    cases hx
    rfl
  have e1 := hrec s1 r1 h1
  have e2 := hrec s2 r2 h2
  refine ⟨?_, ?_, ?_⟩
  · rw [e1]
  · rw [e1]
    exact redactCtx_idem_aux _
  · rw [e1, e2]

/-- C6 witness: the exported configuration, the console sink, an empty
context. -/
theorem redactionOnceBeforeFanout_witness :
    (⟨Level.info, "m", JVal.obj []⟩ : Record).context
        = redactCtx (JVal.obj (emitCtx rootLogger [])) ∧
    redactCtx (⟨Level.info, "m", JVal.obj []⟩ : Record).context
        = (⟨Level.info, "m", JVal.obj []⟩ : Record).context ∧
    (⟨Level.info, "m", JVal.obj []⟩ : Record) = ⟨Level.info, "m", JVal.obj []⟩ :=
  redactionOnceBeforeFanout exportedOpts rootLogger Level.info [] "m"
    consoleLogger ⟨Level.info, "m", JVal.obj []⟩
    consoleLogger ⟨Level.info, "m", JVal.obj []⟩
    (List.mem_cons_self _ _) (List.mem_cons_self _ _)

/-- C7: the document-store sink configuration built from any options
object has its collection field populated from the mongo uri option,
not from the mongo collection option. -/
theorem mongoCollectionTakesUri (opts : Option TargetsOptions) (mo : MongoOpts)
    (o : MongoConnOptions) (u c : String)
    (hm : (metaOf opts).mongo = some mo) (ho : mo.options = some o)
    (hu : o.uri = some u) (_hc : o.collection = some c) (hne : c ≠ u) :
    (mongoDbLogger (mongoConnOf (metaOf opts))).collection = u ∧
    (mongoDbLogger (mongoConnOf (metaOf opts))).collection ≠ c ∧
    (mongoDbLogger (mongoConnOf (metaOf opts))).uri
      = (mongoDbLogger (mongoConnOf (metaOf opts))).collection := by
  have hco : mongoConnOf (metaOf opts) = o := by
    unfold mongoConnOf
    rw [hm]
    simp [ho]
  rw [hco]
  unfold mongoDbLogger
  simp only [hu, Option.getD_some]
  refine ⟨trivial, ?_, trivial⟩
  exact fun hh => hne hh.symm

/-- C7 witness: the default options, whose uri and collection fields
differ. -/
theorem mongoCollectionTakesUri_witness :
    (mongoDbLogger (mongoConnOf (metaOf none))).collection
      = "mongodb://mongo.one.db:27017,mongo.two.db:27017,mongo.three.db:27017/logs?replicaSet=dbrs" ∧
    (mongoDbLogger (mongoConnOf (metaOf none))).collection ≠ "log-collection" ∧
    (mongoDbLogger (mongoConnOf (metaOf none))).uri
      = (mongoDbLogger (mongoConnOf (metaOf none))).collection :=
  mongoCollectionTakesUri none
    ⟨some false,
     some ⟨some "mongodb://mongo.one.db:27017,mongo.two.db:27017,mongo.three.db:27017/logs?replicaSet=dbrs",
           some "logs", some "log-collection"⟩⟩
    ⟨some "mongodb://mongo.one.db:27017,mongo.two.db:27017,mongo.three.db:27017/logs?replicaSet=dbrs",
     some "logs", some "log-collection"⟩
    "mongodb://mongo.one.db:27017,mongo.two.db:27017,mongo.three.db:27017/logs?replicaSet=dbrs"
    "log-collection"
    rfl rfl rfl rfl (by decide)


/-- C8 counterexample: a caller-supplied partial options object is not
merged over the built-in defaults.  With file logging enabled but the
path omitted and mongo omitted, the constructor keeps the partial object
as-is, the file sink gets an empty destination instead of the default
path, and the result differs from the field-by-field merge over defaults
that the claim describes. -/
theorem optionsNotMergedCounterexample :
    metaOf (some (⟨some true, some ⟨some true, none⟩, none⟩ : TargetsOptions))
      = ⟨some true, some ⟨some true, none⟩, none⟩ ∧
    transportTargets (metaOf (some ⟨some true, some ⟨some true, none⟩, none⟩))
      = [consoleLogger, ⟨"pino/file", Level.trace, "", "", "", ""⟩] ∧
    transportTargets (specMergeMeta ⟨some true, some ⟨some true, none⟩, none⟩)
      = [consoleLogger, ⟨"pino/file", Level.trace, "./logs/app.log", "", "", ""⟩] ∧
    metaOf (some ⟨some true, some ⟨some true, none⟩, none⟩)
      ≠ specMergeMeta ⟨some true, some ⟨some true, none⟩, none⟩ := by
  decide

/-- C8 amended: a supplied options object replaces the defaults wholly
(`opts ?? this.#meta`); the built-in defaults survive only when no
options object is supplied at all, and a file options object with the
path omitted yields an empty file destination rather than the default
path. -/
theorem optionsReplaceDefaults (o : TargetsOptions) (f : FileOptions)
    (hf : f.path = none) :
    metaOf (some o) = o ∧ metaOf none = defaultMeta ∧
    (fileLogger f).destination = "" := by
  refine ⟨rfl, rfl, ?_⟩
  unfold fileLogger
  rw [hf]
  rfl

/-- C8 amended witness: file enabled with no path. -/
theorem optionsReplaceDefaults_witness :
    metaOf (some ⟨some true, some ⟨some true, none⟩, none⟩)
      = (⟨some true, some ⟨some true, none⟩, none⟩ : TargetsOptions) ∧
    metaOf none = defaultMeta ∧
    (fileLogger ⟨some true, none⟩).destination = "" :=
  optionsReplaceDefaults ⟨some true, some ⟨some true, none⟩, none⟩
    ⟨some true, none⟩ rfl

/-- C9: an emit call whose first argument is an object and whose second
argument is not a string message fails with the InvalidArgument kind,
the caller-visible outcome of an emit call never depends on which sinks
fail, and a non-failing routed sink receives the record no matter which
other sinks fail. -/
theorem emitInvalidArgumentAndIsolation (c : Ctx) (second : Option EmitArg)
    (m : TargetsOptions) (lvl : Level) (first : EmitArg)
    (fail1 fail2 : SinkCfg → Bool) (s : SinkCfg) (x : Option Ctx × String)
    (hsecond : ∀ msg : String, second ≠ some (EmitArg.str msg))
    (hok : checkEmit first second = Except.ok x)
    (hs : s ∈ route m lvl) (hfail : fail1 s = false) :
    checkEmit (EmitArg.obj c) second = Except.error EmitErr.invalidArgument ∧
    (emitRun m lvl (EmitArg.obj c) second fail1).1
      = Except.error EmitErr.invalidArgument ∧
    (emitRun m lvl first second fail1).1 = (emitRun m lvl first second fail2).1 ∧
    s ∈ (emitRun m lvl first second fail1).2 := by
  have herr : checkEmit (EmitArg.obj c) second
      = Except.error EmitErr.invalidArgument := by
    cases second with
    | none => rfl
    | some a =>
      cases a with
      | str msg => exact absurd rfl (hsecond msg)
      | obj c2 => rfl
  refine ⟨herr, ?_, ?_, ?_⟩
  · unfold emitRun
    rw [herr]
  · unfold emitRun
    cases hck : checkEmit first second <;> rfl
  · unfold emitRun
    rw [hok]
    unfold deliveredSinks
    rw [List.mem_filter]
    exact ⟨hs, by simp [hfail]⟩

/-- C9 witness: a malformed second argument (an object), a well-formed
string-first call, and a failure function under which the document-store
sink fails while the console sink does not. -/
theorem emitInvalidArgumentAndIsolation_witness :
    checkEmit (EmitArg.obj []) (some (EmitArg.obj []))
      = Except.error EmitErr.invalidArgument ∧
    (emitRun exportedOpts Level.info (EmitArg.obj []) (some (EmitArg.obj []))
        (fun s => s.target == "pino-mongodb")).1
      = Except.error EmitErr.invalidArgument ∧
    (emitRun exportedOpts Level.info (EmitArg.str "m") (some (EmitArg.obj []))
        (fun s => s.target == "pino-mongodb")).1
      = (emitRun exportedOpts Level.info (EmitArg.str "m") (some (EmitArg.obj []))
        (fun _ => false)).1 ∧
    consoleLogger ∈ (emitRun exportedOpts Level.info (EmitArg.str "m")
        (some (EmitArg.obj [])) (fun s => s.target == "pino-mongodb")).2 :=
  emitInvalidArgumentAndIsolation [] (some (EmitArg.obj []))
    exportedOpts Level.info (EmitArg.str "m")
    (fun s => s.target == "pino-mongodb") (fun _ => false)
    consoleLogger (none, "m")
    (fun msg h => EmitArg.noConfusion (Option.some.inj h))
    rfl (by decide) (by decide)

/-- C10: because the configured policy removes matched keys rather than
censoring them, every configured path stops resolving after redaction
and the censor placeholder string appears in the redacted output only if
it was already present in the input: for an input free of the
placeholder, the output is free of it too. -/
theorem censorPlaceholderNeverAppears (c : JVal) (p : List Seg)
    (hp : p ∈ configPaths)
    (h : containsStr redactOptions.censor c = false) :
    redactOptions.remove = true ∧
    resolvesB p (redactCtx c) = false ∧
    containsStr redactOptions.censor (redactCtx c) = false := by
  refine ⟨rfl, redactCtx_not_resolves p hp c, ?_⟩
  cases hc : containsStr redactOptions.censor (redactCtx c) with
  | false => rfl
  | true =>
    rw [containsStr_redactCtx _ c hc] at h
    cases h

/-- C10 witness: a context holding a password field and no placeholder
string. -/
theorem censorPlaceholderNeverAppears_witness :
    redactOptions.remove = true ∧
    resolvesB (parsePath "*.password")
      (redactCtx (JVal.obj [("user", JVal.obj [("password", JVal.str "123")])])) = false ∧
    containsStr redactOptions.censor
      (redactCtx (JVal.obj [("user", JVal.obj [("password", JVal.str "123")])])) = false :=
  censorPlaceholderNeverAppears
    (JVal.obj [("user", JVal.obj [("password", JVal.str "123")])])
    (parsePath "*.password")
    (by
      show parsePath "*.password" ∈ configPaths
      have : configPaths
          = [parsePath "user.address", parsePath "user.passport",
             parsePath "user.phone", parsePath "*.password"] := rfl
      rw [this]
      simp)
    (by decide)


end ExplorePino
